import Mathlib

/-! Verification of the authorization-aware data-access layer of the
`sample-file-share-local-node` repository.

The embedding models:
- the `users` table (schema: `users (username TEXT PRIMARY KEY, org TEXT, role
  organization_role)` with `organization_role` the enum `('member','admin')`);
- the Polar policy (`oso-policy.polar`): an actor `User` has `"read"` on a user
  when it holds `"member"` on that user's parent organization, and `"edit_role"`
  / `"delete"` when it holds `"admin"` there; organization role `"admin"`
  implies `"member"`; organization permission `"read"` requires `"member"` and
  `"create_user"` requires `"admin"`.  The fact configuration correlates
  `has_role(User, _, Organization)` with the rows of `users` and
  `has_relation(User, parent, Organization)` with each row's `org` column;
- the four server actions (`getReadableUsersWithPermissions`, `createUser`,
  `deleteUser`, `editUsersRoleByUsername`), each as a pure function from a
  database state to a trace of issued commands, a resulting database state and
  a result value;
- the client-side filter of `UserCreator.tsx` (`updateUsers`).

The external Oso evaluator is modelled at the boundary the spec gives it: its
compiled list condition is an opaque fragment string (a function of subject,
action, resource type and column reference), and evaluating that fragment on a
row of `users` agrees with the point check derived from the policy rules above.
SQL statement whitespace is normalized; statement texts are otherwise built
exactly as the source builds them (constant text for `INSERT`/`DELETE`,
placeholder list depending on the batch length for the batch `UPDATE`).
-/

namespace FileShare

/-- The `organization_role` enum of the schema: `('member', 'admin')`. -/
inductive Role
  | member
  | admin
deriving DecidableEq, Repr

/-- Printing a role back to its SQL text, used when roles travel as statement
parameters. -/
def Role.str : Role → String
  | .member => "member"
  | .admin => "admin"

/-- One row of the `users` table: `username TEXT PRIMARY KEY, org TEXT,
role organization_role`. -/
structure UserRow where
  username : String
  org : String
  role : Role
deriving DecidableEq, Repr

/-- The database state the claims are about: the `users` table. -/
structure DB where
  users : List UserRow
deriving DecidableEq, Repr

/-- Schema well-formedness: `username` is the primary key of `users`, so no two
rows share a username. -/
def DB.wf (db : DB) : Prop := (db.users.map UserRow.username).Nodup

instance (db : DB) : Decidable db.wf := by
  unfold DB.wf; infer_instance

/-- Fact `has_role(User, role, Organization)`: correlated with
`SELECT users.username, users.role, users.org FROM users`. -/
def hasOrgRole (db : DB) (u : String) (r : Role) (o : String) : Bool :=
  db.users.any fun row =>
    decide (row.username = u) && decide (row.org = o) && decide (row.role = r)

/-- Organization role `"admin"` held directly. -/
def orgAdmin (db : DB) (u o : String) : Bool := hasOrgRole db u .admin o

/-- Organization role `"member"`: held directly, or via the policy rule
`"member" if "admin"`. -/
def orgMember (db : DB) (u o : String) : Bool :=
  hasOrgRole db u .member o || orgAdmin db u o

/-- Point check for a permission on an `Organization` resource:
`"read" if "member"`, `"create_user" if "admin"`. -/
def checkOrg (db : DB) (requestor action org : String) : Bool :=
  if action = "read" then orgMember db requestor org
  else if action = "create_user" then orgAdmin db requestor org
  else false

/-- Whether a permission on a `User` resource is granted given the target's
parent organization: `"read" if "member" on "parent"`, `"edit_role" if "admin"
on "parent"`, `"delete" if "admin" on "parent"`. -/
def userPermGranted (db : DB) (requestor action parentOrg : String) : Bool :=
  if action = "read" then orgMember db requestor parentOrg
  else if action = "edit_role" then orgAdmin db requestor parentOrg
  else if action = "delete" then orgAdmin db requestor parentOrg
  else false

/-- Point check for a permission on a `User` resource.  The target's parent
organization comes from the fact `has_relation(User, parent, Organization)`,
correlated with `SELECT username, org FROM users`: the target must have a row,
and the permission is derived from the requestor's role on that row's org. -/
def checkUser (db : DB) (requestor action target : String) : Bool :=
  db.users.any fun row =>
    decide (row.username = target) && userPermGranted db requestor action row.org

/-- The compiled list condition of `oso.listLocal(subject, action, type,
columnRef)`: an opaque SQL boolean fragment.  Per the spec's boundary contract
it is a value produced by the external evaluator from exactly these inputs; we
model it as a token recording them. -/
def compileListCondition (subjectId action resType columnRef : String) : String :=
  "oso_cond(User:" ++ subjectId ++ "," ++ action ++ "," ++ resType ++ ","
    ++ columnRef ++ ")"

/-- Commands a server action issues on its pooled connection, in order. -/
inductive Ev
  /-- Models `pool.connect()`. -/
  | connect
  /-- Models `authorizeUser(client, subject, action, resource)` returning `result`. -/
  | checkEv (subject action resType resId : String) (result : Bool)
  /-- Models `oso.listLocal(subject, action, resType, columnRef)`. -/
  | listLocalEv (subjectId action resType columnRef : String)
  /-- Models `client.query(text, params)`. -/
  | sqlQuery (text : String) (params : List String)
  /-- Models `client.query` of the BEGIN command. -/
  | beginTx
  /-- Models `client.query` of the COMMIT command. -/
  | commitTx
  /-- Models `client.query` of the ROLLBACK command. -/
  | rollbackTx
  /-- Models `client.release()`. -/
  | release
deriving DecidableEq, Repr

/-- A statement event whose text is an `INSERT`, `UPDATE` or `DELETE`. -/
def Ev.isMutation : Ev → Bool
  | .sqlQuery text _ =>
      text.startsWith "INSERT" || text.startsWith "UPDATE"
        || text.startsWith "DELETE"
  | _ => false

/-- An authorization point-check event. -/
def Ev.isCheck : Ev → Bool
  | .checkEv _ _ _ _ _ => true
  | _ => false

/-- A `client.query(text, params)` event. -/
def Ev.isQuery : Ev → Bool
  | .sqlQuery _ _ => true
  | _ => false

/-- Scans a trace in order: `true` iff some mutating statement occurs strictly
before the first authorization check. -/
def mutationBeforeCheck : List Ev → Bool
  | [] => false
  | e :: rest =>
      if e.isCheck then false
      else if e.isMutation then true
      else mutationBeforeCheck rest

/-- Whether some event at an index `i` satisfies `p` and a later index `j > i`
satisfies `q`: used to state "a rollback is issued before the release". -/
def ordered (p q : Ev → Bool) (t : List Ev) : Prop :=
  ∃ i j, i < j ∧ (∃ e, t.get? i = some e ∧ p e = true)
    ∧ ∃ e, t.get? j = some e ∧ q e = true

/-- Outcome of a server action: the commands issued on the connection in
order, the database state after the action, and its result. -/
structure Outcome (ε α : Type) where
  trace : List Ev
  db : DB
  result : Except ε α
deriving Repr

/-! The `createUser` action. -/

/-- The constant text of `createUser`'s single statement (source line:
`INSERT INTO users (username, org, role) VALUES ($1, $2, $3::organization_role);`). -/
def createUserText : String :=
  "INSERT INTO users (username, org, role) VALUES ($1, $2, $3::organization_role);"

/-- Parsing a parameter cast `$n::organization_role`: fails unless the text is
one of the enum's labels. -/
def parseRole : String → Option Role
  | "member" => some Role.member
  | "admin" => some Role.admin
  | _ => none

/-- Models `createUser(p, _prevState, formData)`: connect; `authorizeUser(requestor,
"create_user", Organization org)`; if denied return the error result without
issuing any statement; otherwise issue the `INSERT` with the three values as
bound parameters.  The `INSERT` itself fails when the role text is not an enum
label (cast failure) or the username already exists (primary-key violation);
the organization foreign key cannot fail when the check succeeded, because the
requestor then has a role in that organization.  On statement failure the
caught error is returned as an error result. -/
def createUser (db : DB) (requestor username org roleStr : String) :
    Outcome String String :=
  let auth := checkOrg db requestor "create_user" org
  let checkE := Ev.checkEv requestor "create_user" "Organization" org auth
  if auth then
    let insertE := Ev.sqlQuery createUserText [username, org, roleStr]
    match parseRole roleStr with
    | none =>
        ⟨[.connect, checkE, insertE, .release], db,
          .error ("invalid input value for enum organization_role: " ++ roleStr)⟩
    | some role =>
        if db.users.any (fun r => decide (r.username = username)) then
          ⟨[.connect, checkE, insertE, .release], db,
            .error "duplicate key value violates unique constraint"⟩
        else
          ⟨[.connect, checkE, insertE, .release],
            ⟨db.users ++ [⟨username, org, role⟩]⟩, .ok username⟩
  else
    ⟨[.connect, checkE, .release], db,
      .error ("not permitted to create user in Organization " ++ org)⟩

/-! The `deleteUser` action. -/

/-- The constant text of `deleteUser`'s single statement. -/
def deleteUserText : String := "DELETE FROM users WHERE username = $1;"

/-- Models `deleteUser(requestor, username)`: connect; `authorizeUser(requestor,
"delete", User username)`; if denied throw the error without issuing any
statement; otherwise issue the `DELETE` with the username as a bound
parameter. -/
def deleteUser (db : DB) (requestor username : String) : Outcome String Unit :=
  let auth := checkUser db requestor "delete" username
  let checkE := Ev.checkEv requestor "delete" "User" username auth
  if auth then
    ⟨[.connect, checkE, .sqlQuery deleteUserText [username], .release],
      ⟨db.users.filter (fun r => !decide (r.username = username))⟩, .ok ()⟩
  else
    ⟨[.connect, checkE, .release], db,
      .error ("not permitted to delete User " ++ username)⟩

/-! The `getReadableUsersWithPermissions` action. -/

/-- The `ReadableUser` interface: a user the requestor may read, annotated
with the requestor's `edit_role` and `delete` permissions on that user. -/
structure ReadableUser where
  username : String
  org : String
  role : Role
  editRole : Bool
  deleteUser : Bool
deriving DecidableEq, Repr

/-- The single `SELECT` of `getReadableUsersWithPermissions`, with the three
compiled fragments interpolated: two as boolean projection columns, one as the
`WHERE` clause. -/
def selectUsersText (editCond delCond readCond : String) : String :=
  "SELECT username, org, role, " ++ editCond ++ " as \"editRole\", "
    ++ delCond ++ " as \"deleteUser\" FROM users WHERE " ++ readCond
    ++ " ORDER BY username"

/-- Codepoint order on character lists, modelling the collation of
`ORDER BY username`. -/
def leChars : List Char → List Char → Bool
  | [], _ => true
  | _ :: _, [] => false
  | a :: as, b :: bs =>
      if a.toNat < b.toNat then true
      else if b.toNat < a.toNat then false
      else leChars as bs

/-- Result-row comparison for `ORDER BY username`. -/
def userLe (a b : ReadableUser) : Bool :=
  leChars a.username.data b.username.data

/-- Insertion step of the sort. -/
def insertSorted (u : ReadableUser) : List ReadableUser → List ReadableUser
  | [] => [u]
  | v :: rest =>
      if userLe u v then u :: v :: rest else v :: insertSorted u rest

/-- The `ORDER BY username` ordering as an insertion sort. -/
def sortByUsername : List ReadableUser → List ReadableUser
  | [] => []
  | u :: rest => insertSorted u (sortByUsername rest)

/-- The row set of that `SELECT`: rows of `users` satisfying the compiled
`read` condition, each projected with `editRole` / `deleteUser` booleans
evaluated on that row's own `username` column, ordered by username. -/
def readableRows (db : DB) (requestor : String) : List ReadableUser :=
  sortByUsername
    ((db.users.filter fun row => checkUser db requestor "read" row.username).map
      fun row =>
        ⟨row.username, row.org, row.role,
          checkUser db requestor "edit_role" row.username,
          checkUser db requestor "delete" row.username⟩)

theorem insertSorted_perm (u : ReadableUser) :
    ∀ l : List ReadableUser, (insertSorted u l).Perm (u :: l) := by
  intro l
  induction l with
  | nil => exact List.Perm.refl _
  | cons v rest ih =>
      unfold insertSorted
      by_cases h : userLe u v
      · rw [if_pos h]
      · rw [if_neg h]
        exact (ih.cons v).trans (List.Perm.swap u v rest)

theorem sortByUsername_perm :
    ∀ l : List ReadableUser, (sortByUsername l).Perm l := by
  intro l
  induction l with
  | nil => exact List.Perm.refl _
  | cons u rest ih =>
      unfold sortByUsername
      exact (insertSorted_perm u (sortByUsername rest)).trans (ih.cons u)

/-- Models `users.findIndex(user => user.username === requestor)` followed by
`users.splice(userIndex, 1)[0]`: removes the first row whose username is the
requestor's and returns it with the remaining rows; `none` when no row
matches (`userIndex === -1`). -/
def extractUser (requestor : String) :
    List ReadableUser → Option (ReadableUser × List ReadableUser)
  | [] => none
  | u :: rest =>
      if u.username = requestor then some (u, rest)
      else
        match extractUser requestor rest with
        | some p => some (p.1, u :: p.2)
        | none => none

/-- Errors of `getReadableUsersWithPermissions`.  `userNotFound` is the
function's own `throw new Error(` + "user ... not found" + `)` when the
requestor is absent from its own read set; `dataAccess` is the channel for
connection/query failures (raised by the driver, not by this function's own
logic, so never produced by the pure model). -/
inductive GetErr
  | userNotFound (username : String)
  | dataAccess (msg : String)
deriving DecidableEq, Repr

/-- Outcome of `getReadableUsersWithPermissions`: issued commands, and either
the pair `(users, thisUser)` or an error.  (The function reads only, so the
database state is unchanged and not repeated here.) -/
structure GetOutcome where
  trace : List Ev
  result : Except GetErr (List ReadableUser × ReadableUser)
deriving Repr

/-- Models `getReadableUsersWithPermissions(requestor)`: connect; compile the three
list conditions (`read`, `edit_role`, `delete`, all on column `username`);
issue the single combined `SELECT`; then split the requestor's own row from
the result, failing when it is absent. -/
def getReadableUsersWithPermissions (db : DB) (requestor : String) :
    GetOutcome :=
  let readCond := compileListCondition requestor "read" "User" "username"
  let editCond := compileListCondition requestor "edit_role" "User" "username"
  let delCond := compileListCondition requestor "delete" "User" "username"
  let trace : List Ev :=
    [.connect,
     .listLocalEv requestor "read" "User" "username",
     .listLocalEv requestor "edit_role" "User" "username",
     .listLocalEv requestor "delete" "User" "username",
     .sqlQuery (selectUsersText editCond delCond readCond) [],
     .release]
  match extractUser requestor (readableRows db requestor) with
  | none => ⟨trace, .error (.userNotFound requestor)⟩
  | some (thisUser, others) => ⟨trace, .ok (others, thisUser)⟩

/-- The client-side filter of `UserCreator.tsx` (`updateUsers`):
`users.filter(user => user.username !== requestor)` — "Don't let the user
manage their own permissions." -/
def updateUsersFilter (requestor : String) (users : List ReadableUser) :
    List ReadableUser :=
  users.filter fun user => !decide (user.username = requestor)

/-! The `editUsersRoleByUsername` action. -/

/-- The `(VALUES ...)` placeholder list: the source builds it as
`updates.map((_, i) => ($(2i+1), $(2i+2))).join(", ")`, so it depends only on
the number of updates. -/
def valuesPlaceholders (n : Nat) : String :=
  String.intercalate ", " ((List.range n).map fun i =>
    "($" ++ toString (2 * i + 1) ++ ", $" ++ toString (2 * i + 2) ++ ")")

/-- The batch `UPDATE` text: placeholder rows for the targets, the compiled
`edit_role` condition conjoined in the `WHERE` clause. -/
def batchUpdateText (cond : String) (n : Nat) : String :=
  "UPDATE users SET role = v.role::organization_role FROM (VALUES "
    ++ valuesPlaceholders n
    ++ ") AS v(username, role) WHERE users.username = v.username AND "
    ++ cond ++ ";"

/-- The bound parameters: `updates.flatMap(user => [user.username, user.role])`. -/
def userFields (updates : List (String × Role)) : List String :=
  updates.flatMap fun p => [p.1, p.2.str]

/-- Postgres semantics of the single batch `UPDATE` against state `db`: a row
of `users` is updated exactly when some `VALUES` row carries its username and
the compiled `edit_role` condition holds of that username (the condition's
subqueries see the pre-statement snapshot).  Returns the updated table and the
affected-row count.  When several `VALUES` rows carry the same username the
engine applies one of them (here: the first) — but only one, so the row still
counts once. -/
def runBatchUpdate (db : DB) (requestor : String)
    (updates : List (String × Role)) : DB × Nat :=
  let hit : UserRow → Bool := fun row =>
    (updates.any fun p => decide (p.1 = row.username))
      && checkUser db requestor "edit_role" row.username
  let step : UserRow → UserRow := fun row =>
    if hit row then
      match updates.find? (fun p => decide (p.1 = row.username)) with
      | some p => { row with role := p.2 }
      | none => row
    else row
  (⟨db.users.map step⟩, (db.users.filter hit).length)

/-- Errors of `editUsersRoleByUsername`: the row-count mismatch's own
`throw new Error("not permitted to edit role of all submitted users")`, or a
failure of an issued statement. -/
inductive EditErr
  | notPermitted
  | sqlError (msg : String)
deriving DecidableEq, Repr

/-- Models `editUsersRoleByUsername(requestor, updates)`: connect; compile the
`edit_role` list condition on `users.username`; `BEGIN`; issue the single
batch `UPDATE` with all usernames and roles as bound parameters; compare the
affected-row count to `updates.length`; on match enqueue `COMMIT` and return,
on mismatch enqueue `ROLLBACK` (reverting the statement) and throw.  When
`updates` is empty the built statement has an empty `VALUES` list, which is a
SQL syntax error: the statement fails after `BEGIN`, the error propagates
through the `catch` (which does not roll back), and the connection is released
with the transaction still open. -/
def editUsersRoleByUsername (db : DB) (requestor : String)
    (updates : List (String × Role)) : Outcome EditErr Unit :=
  let cond := compileListCondition requestor "edit_role" "User" "users.username"
  let text := batchUpdateText cond updates.length
  let pre : List Ev :=
    [.connect,
     .listLocalEv requestor "edit_role" "User" "users.username",
     .beginTx,
     .sqlQuery text (userFields updates)]
  if updates.isEmpty then
    ⟨pre ++ [.release], db, .error (.sqlError "syntax error at or near \")\"")⟩
  else
    let out := runBatchUpdate db requestor updates
    if out.2 = updates.length then
      ⟨pre ++ [.commitTx, .release], out.1, .ok ()⟩
    else
      ⟨pre ++ [.rollbackTx, .release], db, .error .notPermitted⟩

/-- Event `a` is issued at some position strictly before a position of `b`. -/
def issuedBefore (a b : Ev) (t : List Ev) : Prop :=
  ∃ i j : Nat, i < j ∧ t[i]? = some a ∧ t[j]? = some b

/-- The texts of the statements a trace issues, in order. -/
def queryTexts (t : List Ev) : List String :=
  t.filterMap fun e =>
    match e with
    | .sqlQuery text _ => some text
    | _ => none

/-! Helper lemmas. -/

theorem checkUser_exists_row {db : DB} {req act t : String}
    (h : checkUser db req act t = true) : ∃ row ∈ db.users, row.username = t := by
  unfold checkUser at h
  rcases List.any_eq_true.mp h with ⟨row, hrow, hp⟩
  simp only [Bool.and_eq_true] at hp
  exact ⟨row, hrow, of_decide_eq_true hp.1⟩

theorem self_readable {db : DB} {row : UserRow} (hrow : row ∈ db.users) :
    checkUser db row.username "read" row.username = true := by
  unfold checkUser
  refine List.any_eq_true.mpr ⟨row, hrow, ?_⟩
  simp only [Bool.and_eq_true, decide_eq_true_eq]
  refine ⟨trivial, ?_⟩
  unfold userPermGranted
  rw [if_pos rfl]
  unfold orgMember orgAdmin hasOrgRole
  simp only [Bool.or_eq_true]
  cases hr : row.role
  · exact .inl (List.any_eq_true.mpr ⟨row, hrow, by simp [hr]⟩)
  · exact .inr (List.any_eq_true.mpr ⟨row, hrow, by simp [hr]⟩)

theorem extractUser_username {requestor : String} :
    ∀ {l : List ReadableUser} {t : ReadableUser} {rest : List ReadableUser},
      extractUser requestor l = some (t, rest) → t.username = requestor := by
  intro l
  induction l with
  | nil => intro t rest h; simp [extractUser] at h
  | cons u us ih =>
      intro t rest h
      unfold extractUser at h
      by_cases hu : u.username = requestor
      · rw [if_pos hu] at h
        cases h; exact hu
      · rw [if_neg hu] at h
        cases hrec : extractUser requestor us with
        | none => rw [hrec] at h; cases h
        | some p =>
            rw [hrec] at h
            cases h
            exact ih hrec

theorem extractUser_mem {requestor : String} :
    ∀ {l : List ReadableUser} {t : ReadableUser} {rest : List ReadableUser},
      extractUser requestor l = some (t, rest) →
        t ∈ l ∧ ∀ u ∈ rest, u ∈ l := by
  intro l
  induction l with
  | nil => intro t rest h; simp [extractUser] at h
  | cons u us ih =>
      intro t rest h
      unfold extractUser at h
      by_cases hu : u.username = requestor
      · rw [if_pos hu] at h
        cases h
        exact ⟨List.mem_cons_self _ _, fun v hv => List.mem_cons_of_mem _ hv⟩
      · rw [if_neg hu] at h
        cases hrec : extractUser requestor us with
        | none => rw [hrec] at h; cases h
        | some p =>
            rw [hrec] at h
            cases h
            rcases ih hrec with ⟨ht, hrest⟩
            refine ⟨List.mem_cons_of_mem _ ht, ?_⟩
            intro v hv
            rcases List.mem_cons.mp hv with hv | hv
            · exact hv ▸ List.mem_cons_self _ _
            · exact List.mem_cons_of_mem _ (hrest v hv)

theorem extractUser_eq_none {requestor : String} :
    ∀ {l : List ReadableUser}, (∀ u ∈ l, u.username ≠ requestor) →
      extractUser requestor l = none := by
  intro l
  induction l with
  | nil => intro _; rfl
  | cons u us ih =>
      intro h
      unfold extractUser
      rw [if_neg (h u (List.mem_cons_self _ _))]
      rw [ih fun v hv => h v (List.mem_cons_of_mem _ hv)]

theorem extractUser_isSome_of_mem {requestor : String} :
    ∀ {l : List ReadableUser}, (∃ u ∈ l, u.username = requestor) →
      ∃ p, extractUser requestor l = some p := by
  intro l
  induction l with
  | nil => rintro ⟨u, hu, _⟩; cases hu
  | cons u us ih =>
      rintro ⟨v, hv, hvname⟩
      unfold extractUser
      by_cases hu : u.username = requestor
      · exact ⟨(u, us), by rw [if_pos hu]⟩
      · rcases List.mem_cons.mp hv with hv' | hv'
        · exact absurd (hv' ▸ hvname) hu
        · rcases ih ⟨v, hv', hvname⟩ with ⟨p, hp⟩
          exact ⟨(p.1, u :: p.2), by rw [if_neg hu, hp]⟩

theorem extractUser_rest_ne {requestor : String} :
    ∀ {l : List ReadableUser} {t : ReadableUser} {rest : List ReadableUser},
      (l.map ReadableUser.username).Nodup →
      extractUser requestor l = some (t, rest) →
        ∀ u ∈ rest, u.username ≠ requestor := by
  intro l
  induction l with
  | nil => intro t rest _ h; simp [extractUser] at h
  | cons u us ih =>
      intro t rest hnd h
      rw [List.map_cons] at hnd
      rcases List.nodup_cons.mp hnd with ⟨hhead, htail⟩
      unfold extractUser at h
      by_cases hu : u.username = requestor
      · rw [if_pos hu] at h
        cases h
        intro v hv hvname
        exact hhead (List.mem_map.mpr ⟨v, hv, by rw [hvname]; exact hu.symm⟩)
      · rw [if_neg hu] at h
        cases hrec : extractUser requestor us with
        | none => rw [hrec] at h; cases h
        | some p =>
            rw [hrec] at h
            cases h
            intro v hv
            rcases List.mem_cons.mp hv with hv' | hv'
            · exact hv' ▸ hu
            · exact ih htail hrec v hv'

theorem mem_readableRows {db : DB} {requestor : String} {u : ReadableUser} :
    u ∈ readableRows db requestor ↔
      ∃ row ∈ db.users, checkUser db requestor "read" row.username = true
        ∧ u = ⟨row.username, row.org, row.role,
            checkUser db requestor "edit_role" row.username,
            checkUser db requestor "delete" row.username⟩ := by
  unfold readableRows
  rw [(sortByUsername_perm _).mem_iff, List.mem_map]
  constructor
  · rintro ⟨row, hrow, rfl⟩
    rcases List.mem_filter.mp hrow with ⟨hmem, hcond⟩
    exact ⟨row, hmem, hcond, rfl⟩
  · rintro ⟨row, hmem, hcond, rfl⟩
    exact ⟨row, List.mem_filter.mpr ⟨hmem, hcond⟩, rfl⟩

theorem readableRows_nodup {db : DB} {requestor : String} (hwf : db.wf) :
    ((readableRows db requestor).map ReadableUser.username).Nodup := by
  unfold readableRows
  have hperm := sortByUsername_perm
    ((db.users.filter fun row => checkUser db requestor "read" row.username).map
      fun row =>
        (⟨row.username, row.org, row.role,
          checkUser db requestor "edit_role" row.username,
          checkUser db requestor "delete" row.username⟩ : ReadableUser))
  refine ((hperm.map ReadableUser.username).nodup_iff).mpr ?_
  rw [List.map_map]
  have hsub : ((db.users.filter fun row =>
      checkUser db requestor "read" row.username).map
        (ReadableUser.username ∘ fun row =>
          (⟨row.username, row.org, row.role,
            checkUser db requestor "edit_role" row.username,
            checkUser db requestor "delete" row.username⟩ : ReadableUser))).Sublist
      (db.users.map UserRow.username) := by
    have : (ReadableUser.username ∘ fun row : UserRow =>
        (⟨row.username, row.org, row.role,
          checkUser db requestor "edit_role" row.username,
          checkUser db requestor "delete" row.username⟩ : ReadableUser))
        = UserRow.username := rfl
    rw [this]
    exact (List.filter_sublist _).map UserRow.username
  exact hsub.nodup hwf

theorem dedup_length_lt {α : Type} [DecidableEq α] {l : List α}
    (h : ¬ l.Nodup) : l.dedup.length < l.length := by
  rcases Nat.lt_or_ge l.dedup.length l.length with h1 | h2
  · exact h1
  · exfalso
    have hsub := List.dedup_sublist l
    have heq : l.dedup.length = l.length := le_antisymm hsub.length_le h2
    exact h (hsub.eq_of_length heq ▸ List.nodup_dedup l)

theorem find?_eq_of_nodup_keys :
    ∀ {updates : List (String × Role)},
      (updates.map Prod.fst).Nodup → ∀ {p : String × Role}, p ∈ updates →
        updates.find? (fun q => decide (q.1 = p.1)) = some p := by
  intro updates
  induction updates with
  | nil => intro _ p hp; cases hp
  | cons h t ih =>
      intro hnd p hp
      rw [List.map_cons] at hnd
      rcases List.nodup_cons.mp hnd with ⟨hhead, htail⟩
      rcases List.mem_cons.mp hp with rfl | hp'
      · exact List.find?_cons_of_pos _ (by simp)
      · have hne : ¬ (h.1 = p.1) := fun he =>
          hhead (List.mem_map.mpr ⟨p, hp', he.symm⟩)
        rw [List.find?_cons_of_neg _ (by simpa using hne)]
        exact ih htail hp'

/-- The predicate the batch `UPDATE` applies to a row of `users`. -/
def batchHit (db : DB) (req : String) (updates : List (String × Role))
    (row : UserRow) : Bool :=
  (updates.any fun p => decide (p.1 = row.username))
    && checkUser db req "edit_role" row.username

theorem runBatchUpdate_count (db : DB) (req : String)
    (updates : List (String × Role)) :
    (runBatchUpdate db req updates).2
      = (db.users.filter (batchHit db req updates)).length := rfl

/-- Usernames of the rows the batch `UPDATE` touches, with no duplicates
(primary key) and all contained in the target-name list. -/
theorem batch_touched_nodup (db : DB) (req : String)
    (updates : List (String × Role)) (hwf : db.wf) :
    (((db.users.filter (batchHit db req updates)).map
        UserRow.username).Nodup)
    ∧ ∀ x ∈ (db.users.filter (batchHit db req updates)).map UserRow.username,
        x ∈ updates.map Prod.fst ∧ ∃ row ∈ db.users, row.username = x := by
  constructor
  · exact List.Nodup.sublist
      ((List.filter_sublist db.users).map UserRow.username) hwf
  · intro x hx
    rcases List.mem_map.mp hx with ⟨row, hrow, rfl⟩
    rcases List.mem_filter.mp hrow with ⟨hmem, hhit⟩
    unfold batchHit at hhit
    simp only [Bool.and_eq_true] at hhit
    rcases List.any_eq_true.mp hhit.1 with ⟨p, hp, hpd⟩
    exact ⟨List.mem_map.mpr ⟨p, hp, of_decide_eq_true hpd⟩,
      ⟨row, hmem, rfl⟩⟩

theorem runBatchUpdate_count_le (db : DB) (req : String)
    (updates : List (String × Role)) (hwf : db.wf) :
    (runBatchUpdate db req updates).2
      ≤ (updates.map Prod.fst).dedup.length := by
  rcases batch_touched_nodup db req updates hwf with ⟨hnd, hsub⟩
  rw [runBatchUpdate_count,
    ← List.length_map (db.users.filter (batchHit db req updates))
      UserRow.username,
    ← List.toFinset_card_of_nodup hnd, ← List.card_toFinset]
  refine Finset.card_le_card ?_
  intro x hx
  exact List.mem_toFinset.mpr ((hsub x (List.mem_toFinset.mp hx)).1)

theorem runBatchUpdate_count_lt_of_missing (db : DB) (req : String)
    (updates : List (String × Role)) (hwf : db.wf) {m : String}
    (hm : m ∈ updates.map Prod.fst)
    (habs : ∀ row ∈ db.users, row.username ≠ m) :
    (runBatchUpdate db req updates).2 < updates.length := by
  rcases batch_touched_nodup db req updates hwf with ⟨hnd, hsub⟩
  have hcard : (runBatchUpdate db req updates).2
      = ((db.users.filter (batchHit db req updates)).map
          UserRow.username).toFinset.card := by
    rw [runBatchUpdate_count, List.toFinset_card_of_nodup hnd,
      List.length_map]
  have hsubset : ((db.users.filter (batchHit db req updates)).map
      UserRow.username).toFinset ⊆ (updates.map Prod.fst).toFinset.erase m := by
    intro x hx
    rcases hsub x (List.mem_toFinset.mp hx) with ⟨hx1, row, hrow, hrowx⟩
    refine Finset.mem_erase.mpr ⟨?_, List.mem_toFinset.mpr hx1⟩
    exact hrowx ▸ habs row hrow
  have h1 := Finset.card_le_card hsubset
  have h2 : ((updates.map Prod.fst).toFinset.erase m).card
      = (updates.map Prod.fst).toFinset.card - 1 :=
    Finset.card_erase_of_mem (List.mem_toFinset.mpr hm)
  have h3 : (updates.map Prod.fst).toFinset.card
      ≤ (updates.map Prod.fst).length := List.toFinset_card_le _
  have h4 : 1 ≤ (updates.map Prod.fst).toFinset.card :=
    Finset.card_pos.mpr ⟨m, List.mem_toFinset.mpr hm⟩
  have h5 : (updates.map Prod.fst).length = updates.length :=
    List.length_map _ _
  omega

theorem runBatchUpdate_count_lt_of_dup (db : DB) (req : String)
    (updates : List (String × Role)) (hwf : db.wf)
    (hdup : ¬ (updates.map Prod.fst).Nodup) :
    (runBatchUpdate db req updates).2 < updates.length := by
  have h1 := runBatchUpdate_count_le db req updates hwf
  have h2 := dedup_length_lt hdup
  have h3 : (updates.map Prod.fst).length = updates.length :=
    List.length_map _ _
  omega

theorem runBatchUpdate_count_eq (db : DB) (req : String)
    (updates : List (String × Role)) (hwf : db.wf)
    (hnd : (updates.map Prod.fst).Nodup)
    (hall : ∀ p ∈ updates, checkUser db req "edit_role" p.1 = true) :
    (runBatchUpdate db req updates).2 = updates.length := by
  rcases batch_touched_nodup db req updates hwf with ⟨hnodup, hsub⟩
  have hback : ∀ x ∈ updates.map Prod.fst,
      x ∈ (db.users.filter (batchHit db req updates)).map UserRow.username := by
    intro x hx
    rcases List.mem_map.mp hx with ⟨p, hp, rfl⟩
    rcases checkUser_exists_row (hall p hp) with ⟨row, hrow, hname⟩
    refine List.mem_map.mpr ⟨row, List.mem_filter.mpr ⟨hrow, ?_⟩, hname⟩
    unfold batchHit
    simp only [Bool.and_eq_true]
    exact ⟨List.any_eq_true.mpr ⟨p, hp, decide_eq_true hname.symm⟩,
      hname ▸ hall p hp⟩
  have hfs : ((db.users.filter (batchHit db req updates)).map
      UserRow.username).toFinset = (updates.map Prod.fst).toFinset := by
    apply Finset.ext
    intro x
    rw [List.mem_toFinset, List.mem_toFinset]
    exact ⟨fun h => (hsub x h).1, fun h => hback x h⟩
  rw [runBatchUpdate_count,
    ← List.length_map (db.users.filter (batchHit db req updates))
      UserRow.username,
    ← List.toFinset_card_of_nodup hnodup, hfs,
    List.toFinset_card_of_nodup hnd, List.length_map]

theorem runBatchUpdate_targets_updated (db : DB) (req : String)
    (updates : List (String × Role))
    (hnd : (updates.map Prod.fst).Nodup)
    (hall : ∀ p ∈ updates, checkUser db req "edit_role" p.1 = true) :
    ∀ p ∈ updates, ∃ row ∈ (runBatchUpdate db req updates).1.users,
      row.username = p.1 ∧ row.role = p.2 := by
  intro p hp
  rcases checkUser_exists_row (hall p hp) with ⟨row, hrow, hname⟩
  have hhit : batchHit db req updates row = true := by
    unfold batchHit
    simp only [Bool.and_eq_true]
    exact ⟨List.any_eq_true.mpr ⟨p, hp, decide_eq_true hname.symm⟩,
      hname ▸ hall p hp⟩
  have hfind : updates.find? (fun q => decide (q.1 = row.username)) = some p := by
    rw [hname]
    exact find?_eq_of_nodup_keys hnd hp
  refine ⟨{ row with role := p.2 }, ?_, hname, rfl⟩
  unfold runBatchUpdate
  simp only
  refine List.mem_map.mpr ⟨row, hrow, ?_⟩
  rw [if_pos]
  · rw [hfind]
  · exact hhit

theorem runBatchUpdate_untargeted (db : DB) (req : String)
    (updates : List (String × Role)) :
    ∀ row ∈ db.users, (∀ p ∈ updates, p.1 ≠ row.username) →
      row ∈ (runBatchUpdate db req updates).1.users := by
  intro row hrow hnotin
  have hany : (updates.any fun p => decide (p.1 = row.username)) = false := by
    rw [List.any_eq_false]
    intro p hp
    simp only [decide_eq_true_eq]
    exact hnotin p hp
  unfold runBatchUpdate
  simp only
  refine List.mem_map.mpr ⟨row, hrow, ?_⟩
  rw [if_neg]
  rw [hany]
  simp

theorem createUser_trace_shape (db : DB)
    (requestor username org roleStr : String) :
    ∃ rest : List Ev,
      (createUser db requestor username org roleStr).trace
        = .connect :: .checkEv requestor "create_user" "Organization" org
            (checkOrg db requestor "create_user" org) :: rest := by
  unfold createUser
  cases checkOrg db requestor "create_user" org
  · exact ⟨[.release], rfl⟩
  · cases parseRole roleStr
    · exact ⟨[.sqlQuery createUserText [username, org, roleStr], .release], rfl⟩
    · cases db.users.any (fun r => decide (r.username = username))
      · exact ⟨[.sqlQuery createUserText [username, org, roleStr], .release],
          rfl⟩
      · exact ⟨[.sqlQuery createUserText [username, org, roleStr], .release],
          rfl⟩

theorem deleteUser_trace_shape (db : DB) (requestor target : String) :
    ∃ rest : List Ev,
      (deleteUser db requestor target).trace
        = .connect :: .checkEv requestor "delete" "User" target
            (checkUser db requestor "delete" target) :: rest := by
  unfold deleteUser
  cases checkUser db requestor "delete" target
  · exact ⟨[.release], rfl⟩
  · exact ⟨[.sqlQuery deleteUserText [target], .release], rfl⟩

/-! The claims. -/

/-- Claim C2: For the single-entity guarded mutations `createUser` and
`deleteUser`: on every path no mutating statement is issued before the first
authorization check and a check is always executed; and when the check returns
false no mutating statement appears in the trace at all, the database is
unchanged, and the returned error names the action and the resource. -/
theorem c2_check_precedes_mutation (db : DB)
    (requestor username org roleStr target : String) :
    (mutationBeforeCheck (createUser db requestor username org roleStr).trace
        = false
      ∧ (createUser db requestor username org roleStr).trace.any Ev.isCheck
          = true
      ∧ mutationBeforeCheck (deleteUser db requestor target).trace = false
      ∧ (deleteUser db requestor target).trace.any Ev.isCheck = true)
    ∧ (checkOrg db requestor "create_user" org = false →
        (createUser db requestor username org roleStr).trace.all
            (fun e => !e.isMutation) = true
          ∧ (createUser db requestor username org roleStr).db = db
          ∧ (createUser db requestor username org roleStr).result
              = Except.error
                  ("not permitted to create user in Organization " ++ org))
    ∧ (checkUser db requestor "delete" target = false →
        (deleteUser db requestor target).trace.all (fun e => !e.isMutation)
            = true
          ∧ (deleteUser db requestor target).db = db
          ∧ (deleteUser db requestor target).result
              = Except.error ("not permitted to delete User " ++ target)) := by
  refine ⟨⟨?_, ?_, ?_, ?_⟩, ?_, ?_⟩
  · rcases createUser_trace_shape db requestor username org roleStr with
      ⟨rest, hr⟩
    rw [hr]; rfl
  · rcases createUser_trace_shape db requestor username org roleStr with
      ⟨rest, hr⟩
    rw [hr]; rfl
  · rcases deleteUser_trace_shape db requestor target with ⟨rest, hr⟩
    rw [hr]; rfl
  · rcases deleteUser_trace_shape db requestor target with ⟨rest, hr⟩
    rw [hr]; rfl
  · intro hc
    unfold createUser
    rw [hc]
    exact ⟨rfl, rfl, rfl⟩
  · intro hd
    unfold deleteUser
    rw [hd]
    exact ⟨rfl, rfl, rfl⟩

/-- Witness for C2 at a concrete denied input: `alice` is only a member of
`acme`, so her `createUser` attempt returns the authorization error. -/
theorem c2_witness :
    (createUser ⟨[⟨"bob", "acme", Role.admin⟩, ⟨"alice", "acme", Role.member⟩]⟩
        "alice" "x" "acme" "member").result
      = Except.error ("not permitted to create user in Organization " ++ "acme") :=
  ((c2_check_precedes_mutation
      ⟨[⟨"bob", "acme", Role.admin⟩, ⟨"alice", "acme", Role.member⟩]⟩
      "alice" "x" "acme" "member" "bob").2.1 (by decide)).2.2

/-- Claim C8: The empty batch: `editUsersRoleByUsername` with no updates builds
a statement with an empty `VALUES` list, which fails, so the call returns an
error — never a silent no-op success — and leaves the database unchanged with
no commit issued. -/
theorem c8_empty_batch_fails (db : DB) (requestor : String) :
    (editUsersRoleByUsername db requestor []).result
        = Except.error (.sqlError "syntax error at or near \")\"")
      ∧ (editUsersRoleByUsername db requestor []).db = db
      ∧ Ev.commitTx ∉ (editUsersRoleByUsername db requestor []).trace := by
  refine ⟨rfl, rfl, ?_⟩
  simp [editUsersRoleByUsername]

/-- Claim C7: When the requestor has no row in `users` it is absent from its own
read set, and `getReadableUsersWithPermissions` fails with the dedicated
"user not found" error, a value distinct from every data-access error. -/
theorem c7_missing_requestor_integrity (db : DB) (requestor : String)
    (habs : ∀ row ∈ db.users, row.username ≠ requestor) :
    (getReadableUsersWithPermissions db requestor).result
        = Except.error (.userNotFound requestor)
      ∧ ∀ msg, GetErr.userNotFound requestor ≠ GetErr.dataAccess msg := by
  constructor
  · have hnone : extractUser requestor (readableRows db requestor) = none := by
      apply extractUser_eq_none
      intro u hu
      rcases mem_readableRows.mp hu with ⟨row, hrow, _, rfl⟩
      exact habs row hrow
    unfold getReadableUsersWithPermissions
    rw [hnone]
  · intro msg h
    cases h

/-- Witness for C7: `zed` has no row, so the lookup fails with the
"user not found" error. -/
theorem c7_witness :
    (getReadableUsersWithPermissions ⟨[⟨"root", "_", Role.admin⟩]⟩ "zed").result
      = Except.error (.userNotFound "zed") :=
  (c7_missing_requestor_integrity ⟨[⟨"root", "_", Role.admin⟩]⟩ "zed"
    (by decide)).1

/-- Claim C3: Every row `getReadableUsersWithPermissions` returns (the separated
`thisUser` included) satisfies the requestor's `read` point check, and its
`editRole` / `deleteUser` booleans are the point checks of those permissions
evaluated at that row's own username; and the whole result is produced by a
single SQL query. -/
theorem c3_read_soundness (db : DB) (requestor : String)
    (users : List ReadableUser) (thisUser : ReadableUser)
    (h : (getReadableUsersWithPermissions db requestor).result
        = Except.ok (users, thisUser)) :
    (∀ u ∈ thisUser :: users,
        checkUser db requestor "read" u.username = true
        ∧ u.editRole = checkUser db requestor "edit_role" u.username
        ∧ u.deleteUser = checkUser db requestor "delete" u.username)
    ∧ ((getReadableUsersWithPermissions db requestor).trace.filter
        Ev.isQuery).length = 1 := by
  constructor
  · unfold getReadableUsersWithPermissions at h
    cases hext : extractUser requestor (readableRows db requestor) with
    | none => rw [hext] at h; cases h
    | some p =>
        obtain ⟨t, o⟩ := p
        rw [hext] at h
        simp only [Except.ok.injEq, Prod.mk.injEq] at h
        obtain ⟨rfl, rfl⟩ := h
        intro u hu
        have hmem : u ∈ readableRows db requestor := by
          rcases extractUser_mem hext with ⟨ht, ho⟩
          rcases List.mem_cons.mp hu with rfl | hu'
          · exact ht
          · exact ho u hu'
        rcases mem_readableRows.mp hmem with ⟨row, hrow, hread, rfl⟩
        exact ⟨hread, rfl, rfl⟩
  · unfold getReadableUsersWithPermissions
    cases hext : extractUser requestor (readableRows db requestor) with
    | none => rfl
    | some p => obtain ⟨t, o⟩ := p; rfl

/-- Witness for C3 at a concrete database: from `alice`'s viewpoint the result
is `.ok` and is produced by one query. -/
theorem c3_witness :
    ((getReadableUsersWithPermissions
        ⟨[⟨"bob", "acme", Role.admin⟩, ⟨"alice", "acme", Role.member⟩]⟩
        "alice").trace.filter Ev.isQuery).length = 1 :=
  (c3_read_soundness
      ⟨[⟨"bob", "acme", Role.admin⟩, ⟨"alice", "acme", Role.member⟩]⟩ "alice"
      [⟨"bob", "acme", Role.admin, false, false⟩]
      ⟨"alice", "acme", Role.member, false, false⟩ (by rfl)).2

/-- Example database shared by the concrete witnesses: one admin and one
member of organization `acme`. -/
def dbAcme : DB :=
  ⟨[⟨"bob", "acme", Role.admin⟩, ⟨"alice", "acme", Role.member⟩]⟩

/-- Example database with a single org admin. -/
def dbSolo : DB := ⟨[⟨"bob", "acme", Role.admin⟩]⟩

theorem editUsers_mismatch (db : DB) (requestor : String)
    (updates : List (String × Role)) (hne : updates ≠ [])
    (hneq : (runBatchUpdate db requestor updates).2 ≠ updates.length) :
    (editUsersRoleByUsername db requestor updates).db = db
      ∧ (editUsersRoleByUsername db requestor updates).result
          = Except.error EditErr.notPermitted
      ∧ (editUsersRoleByUsername db requestor updates).trace
          = [.connect,
             .listLocalEv requestor "edit_role" "User" "users.username",
             .beginTx,
             .sqlQuery
               (batchUpdateText
                 (compileListCondition requestor "edit_role" "User"
                   "users.username") updates.length)
               (userFields updates),
             .rollbackTx, .release] := by
  have hemp : updates.isEmpty = false := by
    cases updates with
    | nil => exact absurd rfl hne
    | cons a l => rfl
  unfold editUsersRoleByUsername
  rw [hemp]
  simp only [Bool.false_eq_true, if_false]
  rw [if_neg hneq]
  exact ⟨rfl, rfl, rfl⟩

theorem editUsers_commit (db : DB) (requestor : String)
    (updates : List (String × Role)) (hne : updates ≠ [])
    (heq : (runBatchUpdate db requestor updates).2 = updates.length) :
    (editUsersRoleByUsername db requestor updates).db
        = (runBatchUpdate db requestor updates).1
      ∧ (editUsersRoleByUsername db requestor updates).result = Except.ok ()
      ∧ Ev.commitTx ∈ (editUsersRoleByUsername db requestor updates).trace := by
  have hemp : updates.isEmpty = false := by
    cases updates with
    | nil => exact absurd rfl hne
    | cons a l => rfl
  unfold editUsersRoleByUsername
  rw [hemp]
  simp only [Bool.false_eq_true, if_false]
  rw [if_pos heq]
  exact ⟨rfl, rfl, by simp⟩

/-- Claim C1, amended: The batch update is all-or-nothing: when the affected-row
count differs from the number of updates the whole statement is rolled back —
the database is unchanged and an authorization error is raised; and when the
targets are pairwise distinct and the requestor holds `edit_role` on each, the
count matches, the transaction commits, every target row carries its new role,
and untargeted rows are untouched.  (Distinctness is necessary: a duplicated
authorized target lowers the affected count and aborts the batch, see the
counterexample.) -/
theorem c1_batch_all_or_nothing (db : DB) (requestor : String)
    (updates : List (String × Role)) (hwf : db.wf) (hne : updates ≠ []) :
    ((runBatchUpdate db requestor updates).2 ≠ updates.length →
        (editUsersRoleByUsername db requestor updates).db = db
          ∧ (editUsersRoleByUsername db requestor updates).result
              = Except.error EditErr.notPermitted
          ∧ Ev.rollbackTx ∈ (editUsersRoleByUsername db requestor updates).trace)
    ∧ ((updates.map Prod.fst).Nodup →
        (∀ p ∈ updates, checkUser db requestor "edit_role" p.1 = true) →
        (editUsersRoleByUsername db requestor updates).result = Except.ok ()
          ∧ Ev.commitTx ∈ (editUsersRoleByUsername db requestor updates).trace
          ∧ (∀ p ∈ updates,
              ∃ row ∈ (editUsersRoleByUsername db requestor updates).db.users,
                row.username = p.1 ∧ row.role = p.2)
          ∧ ∀ row ∈ db.users, (∀ p ∈ updates, p.1 ≠ row.username) →
              row ∈ (editUsersRoleByUsername db requestor updates).db.users) := by
  constructor
  · intro hneq
    rcases editUsers_mismatch db requestor updates hne hneq with ⟨h1, h2, h3⟩
    exact ⟨h1, h2, by rw [h3]; simp⟩
  · intro hnd hall
    have heq := runBatchUpdate_count_eq db requestor updates hwf hnd hall
    rcases editUsers_commit db requestor updates hne heq with ⟨h1, h2, h3⟩
    refine ⟨h2, h3, ?_, ?_⟩
    · intro p hp
      rw [h1]
      exact runBatchUpdate_targets_updated db requestor updates hnd hall p hp
    · intro row hrow hno
      rw [h1]
      exact runBatchUpdate_untargeted db requestor updates row hrow hno

/-- Counterexample to C1 as stated: both entries of the batch are authorized
(`bob` is admin of `alice`'s org), yet because the same target appears twice
the single `UPDATE` affects one row, the count check fails, and the batch is
rolled back with the authorization error instead of committing. -/
theorem c1_counterexample :
    (∀ p ∈ [("alice", Role.admin), ("alice", Role.member)],
        checkUser dbAcme "bob" "edit_role" p.1 = true)
      ∧ (editUsersRoleByUsername dbAcme "bob"
            [("alice", Role.admin), ("alice", Role.member)]).result
          = Except.error EditErr.notPermitted
      ∧ (editUsersRoleByUsername dbAcme "bob"
            [("alice", Role.admin), ("alice", Role.member)]).db = dbAcme := by
  refine ⟨by decide, rfl, rfl⟩

/-- Witness for C1 at a concrete input: a distinct, fully authorized batch
commits. -/
theorem c1_witness :
    (editUsersRoleByUsername dbAcme "bob" [("alice", Role.admin)]).result
      = Except.ok () :=
  ((c1_batch_all_or_nothing dbAcme "bob" [("alice", Role.admin)]
      (by decide) (by decide)).2 (by decide) (by decide)).1

/-- Claim C5, amended: On the row-count-mismatch path a `ROLLBACK` is issued
before the connection is released.  (When the `UPDATE` statement itself fails
after `BEGIN` — e.g. the malformed empty-batch statement — the connection is
released with no rollback; see the counterexample.) -/
theorem c5_mismatch_rollback_before_release (db : DB) (requestor : String)
    (updates : List (String × Role)) (hne : updates ≠ [])
    (hneq : (runBatchUpdate db requestor updates).2 ≠ updates.length) :
    issuedBefore Ev.rollbackTx Ev.release
        (editUsersRoleByUsername db requestor updates).trace
      ∧ (editUsersRoleByUsername db requestor updates).result
          = Except.error EditErr.notPermitted := by
  rcases editUsers_mismatch db requestor updates hne hneq with ⟨_, h2, h3⟩
  refine ⟨⟨4, 5, by omega, ?_, ?_⟩, h2⟩
  · rw [h3]; rfl
  · rw [h3]; rfl

/-- Counterexample to C5 as stated: with an empty batch the statement fails
after `BEGIN`, and the trace releases the connection without ever issuing a
rollback (or commit) — the transaction is left open across the release. -/
theorem c5_counterexample :
    Ev.beginTx ∈ (editUsersRoleByUsername dbSolo "bob" []).trace
      ∧ Ev.rollbackTx ∉ (editUsersRoleByUsername dbSolo "bob" []).trace
      ∧ Ev.commitTx ∉ (editUsersRoleByUsername dbSolo "bob" []).trace
      ∧ (editUsersRoleByUsername dbSolo "bob" []).trace.getLast?
          = some Ev.release
      ∧ (editUsersRoleByUsername dbSolo "bob" []).result
          = Except.error (.sqlError "syntax error at or near \")\"") := by
  refine ⟨by decide, by decide, by decide, by decide, rfl⟩

/-- Witness for C5's amended theorem: `alice` (a member) is not authorized to
edit `bob`, so the count mismatches and the batch errors after rollback. -/
theorem c5_witness :
    (editUsersRoleByUsername dbAcme "alice" [("bob", Role.member)]).result
      = Except.error EditErr.notPermitted :=
  (c5_mismatch_rollback_before_release dbAcme "alice" [("bob", Role.member)]
    (by decide) (by decide)).2

theorem editUsers_queryTexts (db : DB) (requestor : String)
    (u : List (String × Role)) :
    queryTexts (editUsersRoleByUsername db requestor u).trace
      = [batchUpdateText
          (compileListCondition requestor "edit_role" "User" "users.username")
          u.length] := by
  unfold editUsersRoleByUsername
  cases u.isEmpty
  · simp only [Bool.false_eq_true, if_false]
    by_cases h : (runBatchUpdate db requestor u).2 = u.length
    · rw [if_pos h]; simp [queryTexts]
    · rw [if_neg h]; simp [queryTexts]
  · simp [queryTexts]

theorem createUser_trace_cases (db : DB)
    (requestor username org roleStr : String) :
    (createUser db requestor username org roleStr).trace
        = [.connect, .checkEv requestor "create_user" "Organization" org false,
           .release]
      ∨ (createUser db requestor username org roleStr).trace
        = [.connect, .checkEv requestor "create_user" "Organization" org true,
           .sqlQuery createUserText [username, org, roleStr], .release] := by
  unfold createUser
  cases checkOrg db requestor "create_user" org
  · exact Or.inl rfl
  · cases parseRole roleStr
    · exact Or.inr rfl
    · cases db.users.any (fun r => decide (r.username = username))
      · exact Or.inr rfl
      · exact Or.inr rfl

theorem createUser_queries (db : DB) (requestor username org roleStr : String) :
    ∀ t ps,
      Ev.sqlQuery t ps ∈ (createUser db requestor username org roleStr).trace →
        t = createUserText ∧ ps = [username, org, roleStr] := by
  intro t ps hmem
  rcases createUser_trace_cases db requestor username org roleStr with h | h <;>
    rw [h] at hmem <;> simp at hmem
  exact hmem

theorem deleteUser_queries (db : DB) (requestor target : String) :
    ∀ t ps, Ev.sqlQuery t ps ∈ (deleteUser db requestor target).trace →
      t = deleteUserText ∧ ps = [target] := by
  intro t ps hmem
  rcases deleteUser_trace_shape db requestor target with ⟨rest, hr⟩
  cases hc : checkUser db requestor "delete" target
  · unfold deleteUser at hmem
    rw [hc] at hmem
    simp at hmem
  · unfold deleteUser at hmem
    rw [hc] at hmem
    simp at hmem
    exact hmem

theorem editUsers_trace_cases (db : DB) (requestor : String)
    (u : List (String × Role)) :
    ∃ tail : List Ev,
      (editUsersRoleByUsername db requestor u).trace
          = [.connect,
             .listLocalEv requestor "edit_role" "User" "users.username",
             .beginTx,
             .sqlQuery
               (batchUpdateText
                 (compileListCondition requestor "edit_role" "User"
                   "users.username") u.length)
               (userFields u)] ++ tail
        ∧ ∀ t ps, Ev.sqlQuery t ps ∉ tail := by
  unfold editUsersRoleByUsername
  cases u.isEmpty
  · simp only [Bool.false_eq_true, if_false]
    by_cases h : (runBatchUpdate db requestor u).2 = u.length
    · rw [if_pos h]
      exact ⟨[.commitTx, .release], rfl, by intro t ps; simp⟩
    · rw [if_neg h]
      exact ⟨[.rollbackTx, .release], rfl, by intro t ps; simp⟩
  · exact ⟨[.release], rfl, by intro t ps; simp⟩

theorem editUsers_queries (db : DB) (requestor : String)
    (u : List (String × Role)) :
    ∀ t ps,
      Ev.sqlQuery t ps ∈ (editUsersRoleByUsername db requestor u).trace →
        t = batchUpdateText
              (compileListCondition requestor "edit_role" "User"
                "users.username") u.length
          ∧ ps = userFields u := by
  intro t ps hmem
  rcases editUsers_trace_cases db requestor u with ⟨tail, htr, htail⟩
  rw [htr] at hmem
  rcases List.mem_append.mp hmem with hin | hin
  · simp at hin
    exact hin
  · exact absurd hin (htail t ps)

/-- Claim C9: Statement texts are independent of caller-supplied values: the
`INSERT` of `createUser` and the `DELETE` of `deleteUser` are fixed texts with
the caller's values appearing only in the bound-parameter list, and the batch
`UPDATE`'s text is determined by the requestor's compiled condition and the
number of targets alone — two batches of equal length (for the same requestor)
issue the same statement text, whatever the usernames, roles or database
contents. -/
theorem c9_bound_parameters (db dbA dbB : DB)
    (requestor username org roleStr target : String)
    (u1 u2 : List (String × Role)) (hlen : u1.length = u2.length) :
    (∀ t ps,
        Ev.sqlQuery t ps ∈ (createUser db requestor username org roleStr).trace →
          t = createUserText ∧ ps = [username, org, roleStr])
    ∧ (∀ t ps, Ev.sqlQuery t ps ∈ (deleteUser db requestor target).trace →
        t = deleteUserText ∧ ps = [target])
    ∧ (∀ t ps,
        Ev.sqlQuery t ps ∈ (editUsersRoleByUsername db requestor u1).trace →
          t = batchUpdateText
                (compileListCondition requestor "edit_role" "User"
                  "users.username") u1.length
            ∧ ps = userFields u1)
    ∧ queryTexts (editUsersRoleByUsername dbA requestor u1).trace
        = queryTexts (editUsersRoleByUsername dbB requestor u2).trace := by
  exact ⟨createUser_queries db requestor username org roleStr,
    deleteUser_queries db requestor target,
    editUsers_queries db requestor u1,
    by rw [editUsers_queryTexts, editUsers_queryTexts, hlen]⟩

/-- Witness for C9: two different same-length batches over different databases
issue the same statement text. -/
theorem c9_witness :
    queryTexts (editUsersRoleByUsername dbAcme "bob"
        [("alice", Role.admin)]).trace
      = queryTexts (editUsersRoleByUsername dbSolo "bob"
          [("zed", Role.member)]).trace :=
  (c9_bound_parameters dbAcme dbAcme dbSolo "bob" "x" "acme" "member" "y"
    [("alice", Role.admin)] [("zed", Role.member)] rfl).2.2.2

/-- Claim C10: A target username that names no row, or a username occurring
twice among the targets, makes the affected-row count strictly smaller than
the number of updates, so the batch rolls back (database unchanged) and fails
with the same not-permitted error used for unauthorized targets — "not found"
and "duplicate" are conflated with "unauthorized". -/
theorem c10_missing_or_dup_conflated (db : DB) (requestor : String)
    (updates : List (String × Role)) (hwf : db.wf)
    (hbad : (∃ p ∈ updates, ∀ row ∈ db.users, row.username ≠ p.1)
      ∨ ¬ (updates.map Prod.fst).Nodup) :
    (runBatchUpdate db requestor updates).2 < updates.length
      ∧ (editUsersRoleByUsername db requestor updates).result
          = Except.error EditErr.notPermitted
      ∧ (editUsersRoleByUsername db requestor updates).db = db := by
  have hlt : (runBatchUpdate db requestor updates).2 < updates.length := by
    rcases hbad with ⟨p, hp, habs⟩ | hdup
    · exact runBatchUpdate_count_lt_of_missing db requestor updates hwf
        (List.mem_map.mpr ⟨p, hp, rfl⟩) habs
    · exact runBatchUpdate_count_lt_of_dup db requestor updates hwf hdup
  have hne : updates ≠ [] := by
    intro h
    rw [h] at hlt
    simp at hlt
  rcases editUsers_mismatch db requestor updates hne (Nat.ne_of_lt hlt) with
    ⟨h1, h2, _⟩
  exact ⟨hlt, h2, h1⟩

/-- Witness for C10: a batch naming the nonexistent `zed` fails with the
not-permitted error although `bob` is authorized for every existing target. -/
theorem c10_witness :
    (editUsersRoleByUsername dbAcme "bob"
        [("alice", Role.admin), ("zed", Role.member)]).result
      = Except.error EditErr.notPermitted :=
  (c10_missing_or_dup_conflated dbAcme "bob"
      [("alice", Role.admin), ("zed", Role.member)] (by decide)
      (Or.inl ⟨("zed", Role.member), by decide, by decide⟩)).2.1

/-- Claim C6: When the requestor has a row in `users`, the read succeeds (a user
can always read itself: its own role makes it a member of its parent org), the
separated `thisUser` is the requestor's entry, and the returned `users` list
of manageable others contains no entry for the requestor — under the schema's
username uniqueness the requestor appears exactly once, as `thisUser`. -/
theorem c6_requestor_separated (db : DB) (requestor : String) (hwf : db.wf)
    (hmem : ∃ row ∈ db.users, row.username = requestor) :
    (∃ p, (getReadableUsersWithPermissions db requestor).result = Except.ok p)
    ∧ ∀ users thisUser,
        (getReadableUsersWithPermissions db requestor).result
            = Except.ok (users, thisUser) →
          thisUser.username = requestor
          ∧ ∀ u ∈ users, u.username ≠ requestor := by
  rcases hmem with ⟨row, hrow, hname⟩
  have hself : checkUser db requestor "read" row.username = true := by
    rw [hname]
    have h := self_readable hrow
    rwa [hname] at h
  have hu0 : ∃ u ∈ readableRows db requestor, u.username = requestor := by
    exact ⟨⟨row.username, row.org, row.role,
        checkUser db requestor "edit_role" row.username,
        checkUser db requestor "delete" row.username⟩,
      mem_readableRows.mpr ⟨row, hrow, hself, rfl⟩, hname⟩
  rcases extractUser_isSome_of_mem hu0 with ⟨p, hp⟩
  obtain ⟨t, o⟩ := p
  constructor
  · refine ⟨(o, t), ?_⟩
    unfold getReadableUsersWithPermissions
    rw [hp]
  · intro users thisUser h
    unfold getReadableUsersWithPermissions at h
    rw [hp] at h
    simp only [Except.ok.injEq, Prod.mk.injEq] at h
    obtain ⟨rfl, rfl⟩ := h
    exact ⟨extractUser_username hp,
      fun u hu => extractUser_rest_ne (readableRows_nodup hwf) hp u hu⟩

/-- Witness for C6: with `alice` present, her entry is `thisUser`. -/
theorem c6_witness :
    (⟨"alice", "acme", Role.member, false, false⟩ : ReadableUser).username
      = "alice" :=
  ((c6_requestor_separated dbAcme "alice" (by decide)
      ⟨⟨"alice", "acme", Role.member⟩, by decide, rfl⟩).2
    [⟨"bob", "acme", Role.admin, false, false⟩]
    ⟨"alice", "acme", Role.member, false, false⟩ (by rfl)).1

/-- Claim C4, amended: The requestor is excluded from the manageable set only
on the read/UI path: the rows `getReadableUsersWithPermissions` hands back in
`users` never contain the requestor (its row is split off as `thisUser`), and
`UserCreator`'s `updateUsers` additionally filters the requestor's username
from whatever list it passes on.  The batch action itself enforces no such
exclusion — see the counterexample, where an org admin changes its own role
through `editUsersRoleByUsername`. -/
theorem c4_ui_excludes_requestor (db : DB) (requestor : String)
    (users : List ReadableUser) (thisUser : ReadableUser) (hwf : db.wf)
    (h : (getReadableUsersWithPermissions db requestor).result
        = Except.ok (users, thisUser)) :
    (∀ u ∈ updateUsersFilter requestor users, u.username ≠ requestor)
    ∧ ∀ u ∈ users, u.username ≠ requestor := by
  have h2 : ∀ u ∈ users, u.username ≠ requestor := by
    unfold getReadableUsersWithPermissions at h
    cases hext : extractUser requestor (readableRows db requestor) with
    | none => rw [hext] at h; cases h
    | some p =>
        obtain ⟨t, o⟩ := p
        rw [hext] at h
        simp only [Except.ok.injEq, Prod.mk.injEq] at h
        obtain ⟨rfl, rfl⟩ := h
        exact fun u hu =>
          extractUser_rest_ne (readableRows_nodup hwf) hext u hu
  refine ⟨?_, h2⟩
  intro u hu
  rcases List.mem_filter.mp hu with ⟨_, hu2⟩
  simpa using hu2

/-- Counterexample to C4 as stated: `bob` is admin of his own organization,
so he holds `edit_role` on himself; passing himself as the single batch target
commits and demotes his own role — the server action does not exclude the
requestor from the targets it mutates. -/
theorem c4_counterexample :
    (editUsersRoleByUsername dbSolo "bob" [("bob", Role.member)]).result
        = Except.ok ()
      ∧ (editUsersRoleByUsername dbSolo "bob" [("bob", Role.member)]).db
          = ⟨[⟨"bob", "acme", Role.member⟩]⟩ := by
  exact ⟨rfl, rfl⟩

/-- Witness for C4's amended theorem: the filtered list from `alice`'s view
keeps `bob`, whose username differs from hers. -/
theorem c4_witness :
    (⟨"bob", "acme", Role.admin, false, false⟩ : ReadableUser).username
      ≠ "alice" :=
  (c4_ui_excludes_requestor dbAcme "alice"
      [⟨"bob", "acme", Role.admin, false, false⟩]
      ⟨"alice", "acme", Role.member, false, false⟩ (by decide) (by rfl)).2
    ⟨"bob", "acme", Role.admin, false, false⟩ (by decide)

end FileShare
